import Mathlib

/-!
Verification development for the pdf2ttf raster-to-vector extraction pipeline and
vector path editing engine (src/components/CharacterExtractor.tsx,
src/components/GlyphEditor.tsx, src/types.ts).

Modelling conventions:
* JavaScript numbers that are only ever integer-valued in the verified code paths
  (pixel coordinates, path coordinates) are modelled as `Int`; a JS number that may
  be `NaN`/`undefined` is modelled as `Option Int` with `none` standing for the
  not-a-number outcomes.
* Viewport arithmetic (pan/zoom) is modelled over exact rationals `ℚ`.
* The luma test `0.34*R + 0.5*G + 0.16*B < threshold` is scaled by 100 to the exact
  integer comparison `34*R + 50*G + 16*B < 100*threshold`.
* Loops are translated to structural recursion; the traced do-while loop carries an
  explicit fuel argument equal to its remaining allowed steps.
-/

namespace Pdf2ttf

/-! ### Viewport transform (GlyphEditor.tsx / CharacterExtractor.tsx) -/

/-- viewport transform state `{x, y, k}` of GlyphEditor.tsx (CharacterExtractor.tsx
names the scale field `scale`; the formulas are identical). -/
structure Transform where
  x : ℚ
  y : ℚ
  k : ℚ
deriving DecidableEq

/-- handleZoom of GlyphEditor.tsx (and of CharacterExtractor.tsx):
`k := Math.max(0.1, Math.min(10, k * factor))`. -/
def handleZoom (factor : ℚ) (t : Transform) : Transform :=
  { t with k := max (1/10) (min 10 (t.k * factor)) }

/-- handleWheel of GlyphEditor.tsx lines 139-159 (CharacterExtractor.tsx lines 67-86 is
the same computation): clamp the new scale to `[0.1, 10]` and recompute the translation
so that the model point under the mouse stays under it. -/
def handleWheel (mouseX mouseY scaleFactor : ℚ) (prev : Transform) : Transform :=
  let newK := max (1/10) (min 10 (prev.k * scaleFactor))
  { x := mouseX - (mouseX - prev.x) * (newK / prev.k),
    y := mouseY - (mouseY - prev.y) * (newK / prev.k),
    k := newK }

/-- screen-to-model mapping as in CharacterExtractor.tsx handleMouseDown:
`((clientX - rect.left) - transform.x) / transform.scale`, per axis. -/
def toModel (t : Transform) (sx sy : ℚ) : ℚ × ℚ :=
  ((sx - t.x) / t.k, (sy - t.y) / t.k)

/-- panning step of GlyphEditor.tsx handleMouseMove: translate shifted by the mouse
delta, scale untouched. -/
def panBy (dx dy : ℚ) (t : Transform) : Transform :=
  { t with x := t.x + dx, y := t.y + dy }

/-- resetView of CharacterExtractor.tsx lines 52-65:
`scale = Math.min(containerW/imgW, containerH/imgH, 1)` and centre the image. -/
def resetView (containerW containerH imgW imgH : ℚ) : Transform :=
  let scale := min (containerW / imgW) (min (containerH / imgH) 1)
  { x := (containerW - imgW * scale) / 2,
    y := (containerH - imgH * scale) / 2,
    k := scale }

/-- handleFitScreen of GlyphEditor.tsx lines 126-137 (the same computation initialises
the view on load): fit the glyph plus a 40 px margin, capped at scale 2, centred. -/
def handleFitScreen (containerW containerH glyphW glyphH : ℚ) : Transform :=
  let scale := min (containerW / (glyphW + 40)) (min (containerH / (glyphH + 40)) 2)
  { x := (containerW - glyphW * scale) / 2,
    y := (containerH - glyphH * scale) / 2,
    k := scale }

/-! ### Path model (GlyphEditor.tsx) -/

/-- point kind tag of the GlyphEditor `Point` interface. -/
inductive PointType where
  | corner
  | smooth
deriving DecidableEq

/-- a JS number that can be `NaN` (or an `undefined` read that is used as a number):
`none` is the not-a-number case. -/
abbrev JsNum := Option Int

/-- the GlyphEditor `Point`: `{x, y, type}`. The optional `cx1..cy2` control-point
fields of the source interface are never written anywhere in the code, so they are
omitted here. -/
structure Point where
  x : JsNum
  y : JsNum
  type : PointType
deriving DecidableEq

/-- editor component state relevant to the path engine: the active point list and the
undo history of GlyphEditor.tsx. -/
structure EditorState where
  points : List Point
  history : List (List Point)
deriving DecidableEq

/-- saveHistory of GlyphEditor.tsx lines 109-111:
`setHistory(prev => [...prev.slice(-10), JSON.parse(JSON.stringify(points))])`.
JS `slice(-10)` keeps the last ten entries (`drop (length - 10)`), so the stack never
exceeds eleven entries; the deep copy is the identity on immutable Lean lists. -/
def saveHistory (s : EditorState) : EditorState :=
  { s with history := s.history.drop (s.history.length - 10) ++ [s.points] }

/-- handleUndo of GlyphEditor.tsx lines 113-118: no-op on an empty history, otherwise
restore the most recent snapshot and pop it. -/
def handleUndo (s : EditorState) : EditorState :=
  if s.history.length = 0 then s
  else { points := s.history.getLastD [], history := s.history.dropLast }

/-- index-aware filter, the shape of the JS `arr.filter((_, i) => pred(i))` calls in
GlyphEditor.tsx; `i` is the running element index. -/
def filterIdxFrom {α : Type} (pred : Nat → Bool) : List α → Nat → List α
  | [], _ => []
  | a :: as, i =>
    if pred i then a :: filterIdxFrom pred as (i + 1) else filterIdxFrom pred as (i + 1)

/-- handleDoubleClickNode of GlyphEditor.tsx lines 212-217: push a snapshot, then
delete the clicked node only when more than three points remain. -/
def handleDoubleClickNode (idx : Nat) (s : EditorState) : EditorState :=
  let s1 := saveHistory s
  if 3 < s.points.length then
    { s1 with points := filterIdxFrom (fun i => i != idx) s.points 0 }
  else s1

/-- handleSimplify of GlyphEditor.tsx lines 224-229: push a snapshot, then keep the
even-indexed points only when more than six points remain. -/
def handleSimplify (s : EditorState) : EditorState :=
  let s1 := saveHistory s
  if 6 < s.points.length then
    { s1 with points := filterIdxFrom (fun i => i % 2 == 0) s.points 0 }
  else s1

/-- shape of every mutating editor action of GlyphEditor.tsx (move, delete, smooth,
simplify): call saveHistory first, then replace the point list. -/
def mutatingOp (newPoints : List Point) (s : EditorState) : EditorState :=
  { saveHistory s with points := newPoints }

/-! ### Raster sampler and contour tracer (CharacterExtractor.tsx) -/

/-- integer pixel position; the boundary walk also probes coordinates `-1`, hence
`Int` components. -/
structure Pos where
  x : Int
  y : Int
deriving DecidableEq

/-- isPixelOn of CharacterExtractor.tsx lines 11-18. Out-of-bounds reads are
background; height is recovered as `data.length / (4 * width)` exactly as in the
source. The float comparison `0.34*R + 0.5*G + 0.16*B < threshold` is scaled by 100
to the exact comparison `34*R + 50*G + 16*B < 100*threshold`. -/
def isPixelOn (data : List Nat) (w : Nat) (x y : Int) (threshold : Nat) : Bool :=
  if x < 0 ∨ (w : Int) ≤ x ∨ y < 0 ∨ ((data.length / (4 * w) : Nat) : Int) ≤ y then
    false
  else
    let idx := (y.toNat * w + x.toNat) * 4
    decide (34 * data.getD idx 0 + 50 * data.getD (idx + 1) 0 + 16 * data.getD (idx + 2) 0
      < 100 * threshold)

/-- clockwise neighbour offsets of CharacterExtractor.tsx lines 218-221:
N, NE, E, SE, S, SW, W, NW. -/
def offsets : List (Int × Int) :=
  [(0, -1), (1, -1), (1, 0), (1, 1), (0, 1), (-1, 1), (-1, 0), (-1, -1)]

/-- raster scan of CharacterExtractor.tsx lines 172-174: first foreground pixel in
row-major order (rows outer, columns inner). -/
def findStart (data : List Nat) (w h threshold : Nat) : Option Pos :=
  (List.range h).findSome? fun y =>
    (List.range w).findSome? fun x =>
      if isPixelOn data w (x : Int) (y : Int) threshold then some ⟨x, y⟩ else none

/-- one Moore-neighbour step of CharacterExtractor.tsx lines 225-249: locate the
backtrack pixel among the eight offsets (defaulting to index 0), then scan the eight
neighbours clockwise starting just after it; the first foreground neighbour becomes
the new current pixel and the neighbour scanned immediately before it becomes the new
backtrack pixel (`prevIdx = (idx - 1 + 8) % 8`, written `(idx + 8 - 1) % 8` for `Nat`).
The `neighbors` array of lines 203-207 is computed but never read in the source, so it
is omitted. -/
def findNext (data : List Nat) (w threshold : Nat) (p b : Pos) : Option (Pos × Pos) :=
  let startIndex :=
    (((List.range 8).find? fun k =>
      (p.x + (offsets.getD k (0, 0)).1 == b.x) && (p.y + (offsets.getD k (0, 0)).2 == b.y)).getD 0)
  (List.range 8).findSome? fun i =>
    let idx := (startIndex + 1 + i) % 8
    let off := offsets.getD idx (0, 0)
    if isPixelOn data w (p.x + off.1) (p.y + off.2) threshold then
      let poff := offsets.getD ((idx + 8 - 1) % 8) (0, 0)
      some (⟨p.x + off.1, p.y + off.2⟩, ⟨p.x + poff.1, p.y + poff.2⟩)
    else none

/-- the do-while trace loop of CharacterExtractor.tsx lines 197-260. Each call is one
loop body: push the current pixel, find the next boundary pixel, stop on an isolated
pixel, on return to the start pixel, or when the step budget runs out. The JS loop
with counter `steps` continues while `steps < maxSteps` after incrementing, which
admits at most `maxSteps` body executions; `fuel` is the number of further bodies still
allowed, so the initial call passes `maxSteps - 1`. -/
def traceGo (data : List Nat) (w threshold : Nat) (start : Pos) :
    Nat → Pos → Pos → List Pos → List Pos
  | fuel, p, b, acc =>
    let acc1 := acc ++ [p]
    match findNext data w threshold p b with
    | none => acc1
    | some (p1, b1) =>
      if p1 = start then acc1
      else
        match fuel with
        | 0 => acc1
        | fuel1 + 1 => traceGo data w threshold start fuel1 p1 b1 acc1

/-- full boundary trace of CharacterExtractor.tsx lines 163-266: raster-scan for the
first foreground pixel, then Moore-neighbour trace with backtrack initialised to the
pixel on its left and step budget `maxSteps = w * h * 2`. (The `visited` set of the
source is written but never read, so it is omitted.) -/
def traceBoundary (data : List Nat) (w h threshold : Nat) : List Pos :=
  match findStart data w h threshold with
  | none => []
  | some s => traceGo data w threshold s (w * h * 2 - 1) s ⟨s.x - 1, s.y⟩ []

/-- collinearity removal of CharacterExtractor.tsx lines 268-287: keep the first
point, drop every interior point whose incoming and outgoing edges satisfy
`dx1*dy2 == dy1*dx2` against the last kept point, and always append the last raw
point. -/
def simplifyCollinear (points : List Pos) : List Pos :=
  match points with
  | [] => []
  | p0 :: _ =>
    let simplified := (List.range' 1 (points.length - 2)).foldl
      (fun simplified i =>
        let prev := simplified.getLastD p0
        let curr := points.getD i p0
        let next := points.getD (i + 1) p0
        let dx1 := curr.x - prev.x
        let dy1 := curr.y - prev.y
        let dx2 := next.x - curr.x
        let dy2 := next.y - curr.y
        if dx1 * dy2 ≠ dy1 * dx2 then simplified ++ [curr] else simplified)
      [p0]
    simplified ++ [points.getLastD p0]

/-! ### Serialization (GlyphEditor.tsx parsePath/pointsToPath and the path builder of
CharacterExtractor.tsx) -/

/-- character class of the regex `[a-zA-Z]`, via code points. -/
def isAlphaCh (c : Char) : Bool :=
  (97 ≤ c.toNat && c.toNat ≤ 122) || (65 ≤ c.toNat && c.toNat ≤ 90)

/-- whitespace as matched by `\s` and removed by JS `trim` (the forms that occur in
path strings). -/
def isWsCh (c : Char) : Bool :=
  c.toNat = 32 || c.toNat = 9 || c.toNat = 10 || c.toNat = 13

/-- separator class of the regex `[\s,]`. -/
def isSepCh (c : Char) : Bool :=
  isWsCh c || c.toNat = 44

/-- decimal digit class, via code points. -/
def isDigitCh (c : Char) : Bool :=
  48 ≤ c.toNat && c.toNat ≤ 57

/-- decimal digit character for `d < 10`. -/
def digitChar (d : Nat) : Char :=
  Char.ofNat (48 + d)

/-- decimal digit expansion of a natural number, most significant digit first; `fuel`
bounds the recursion depth so that the definition is structural and kernel-reducible
(any `fuel > n` gives the true digit string). -/
def natDigitsAux : Nat → Nat → List Char
  | 0, _ => []
  | fuel + 1, n =>
    if n < 10 then [digitChar n]
    else natDigitsAux fuel (n / 10) ++ [digitChar (n % 10)]

/-- decimal digit string of a natural number, as JS number-to-string prints it. -/
def natDigits (n : Nat) : List Char :=
  natDigitsAux (n + 1) n

/-- string form of a JS number as produced by template interpolation: decimal digits
with a leading minus for negatives, and the literal `NaN` for the not-a-number case. -/
def numRepr : JsNum → List Char
  | none => ['N', 'a', 'N']
  | some n => if n < 0 then '-' :: natDigits (-n).toNat else natDigits n.toNat

/-- string wrapper of `numRepr`. -/
def numToString (v : JsNum) : String :=
  ⟨numRepr v⟩

/-- numeric value of a digit string (most significant first). -/
def digitsVal (l : List Char) : Nat :=
  l.foldl (fun a c => 10 * a + (c.toNat - 48)) 0

/-- JS `Number(token)` on the tokens that arise from path strings: the empty string is
`0`, an optionally signed all-digit string is its value, anything else is `NaN`
(fractional, exponent and hex forms never occur in the verified code paths and are
mapped to `NaN` here). -/
def parseNumber (l : List Char) : JsNum :=
  if l = [] then some 0
  else if l.headD ' ' = '-' then
    if l.tail ≠ [] ∧ l.tail.all isDigitCh then some (-(digitsVal l.tail : Int)) else none
  else if l.headD ' ' = '+' then
    if l.tail ≠ [] ∧ l.tail.all isDigitCh then some (digitsVal l.tail : Int) else none
  else if l.all isDigitCh then some (digitsVal l : Int) else none

/-- JS `String.prototype.trim`: drop whitespace from both ends. -/
def trimWs (l : List Char) : List Char :=
  ((l.dropWhile isWsCh).reverse.dropWhile isWsCh).reverse

/-- scanner of JS `split(/[\s,]+/)`: `mode = false` is building the current token
(accumulated reversed in `cur`), `mode = true` is consuming a separator run. A run of
separators is one split point; leading and trailing runs produce empty tokens, exactly
as the JS regex split does. -/
def splitSepGo : List Char → List Char → Bool → List (List Char)
  | [], cur, false => [cur.reverse]
  | [], _, true => [[]]
  | c :: cs, cur, false =>
    if isSepCh c then cur.reverse :: splitSepGo cs [] true else splitSepGo cs (c :: cur) false
  | c :: cs, _, true =>
    if isSepCh c then splitSepGo cs [] true else splitSepGo cs [c] false

/-- JS `str.split(/[\s,]+/)`. -/
def splitSep (l : List Char) : List (List Char) :=
  splitSepGo l [] false

/-- scanner of the regex `match(/[a-zA-Z][^a-zA-Z]*/g)` of parsePath: characters before
the first letter are skipped (`acc = none`); a letter closes the current match and
opens a new one; non-letters extend the current match (accumulated reversed). -/
def splitCommandsGo : List Char → Option (List Char) → List (List Char)
  | [], none => []
  | [], some k => [k.reverse]
  | c :: cs, none =>
    if isAlphaCh c then splitCommandsGo cs (some [c]) else splitCommandsGo cs none
  | c :: cs, some k =>
    if isAlphaCh c then k.reverse :: splitCommandsGo cs (some [c])
    else splitCommandsGo cs (some (c :: k))

/-- command chunks of a path string, as matched by `/[a-zA-Z][^a-zA-Z]*/g` (a null
match result and an empty match list both yield no points downstream). -/
def splitCommands (l : List Char) : List (List Char) :=
  splitCommandsGo l none

/-- body of the parsePath loop of GlyphEditor.tsx lines 27-34: take the command letter,
split the rest into number tokens (`slice(1).trim().split(/[\s,]+/).map(Number)`), and
push a corner point for `M` and `L` commands only; missing coordinates (`coords[i]`
beyond the end) are `undefined` and hence not-a-number. -/
def parseCmdStep (points : List Point) (cmd : List Char) : List Point :=
  match cmd with
  | [] => points
  | t :: rest =>
    let coords := (splitSep (trimWs rest)).map parseNumber
    if t = 'M' ∨ t = 'L' then
      points ++ [{ x := coords.getD 0 none, y := coords.getD 1 none, type := .corner }]
    else points

/-- parsePath of GlyphEditor.tsx lines 21-36. -/
def parsePath (d : String) : List Point :=
  (splitCommands d.data).foldl parseCmdStep []

/-- pointsToPath of GlyphEditor.tsx lines 38-56: `M` to the first point, then for every
index `i` a line to `points[(i + 1) % points.length]` (the source's
`curr.type === smooth` conditional has identical branches and is dropped), then `Z`.
Note the loop runs over all indices, so the final `L` returns to the first point. -/
def pointsToPath (points : List Point) : String :=
  match points with
  | [] => ""
  | p0 :: _ =>
    let d0 := "M" ++ numToString p0.x ++ " " ++ numToString p0.y
    let d1 := (List.range points.length).foldl
      (fun d i =>
        let next := points.getD ((i + 1) % points.length) p0
        d ++ " L" ++ numToString next.x ++ " " ++ numToString next.y)
      d0
    d1 ++ "Z"

/-! ### Glyph assembly (CharacterExtractor.tsx lines 289-314) -/

/-- path builder of CharacterExtractor.tsx lines 291-296: `M` to the first simplified
point then `L` to each following point (no spaces between commands) and `Z`. -/
def svgPathBuild (simplified : List Pos) : String :=
  match simplified with
  | [] => ""
  | p0 :: rest =>
    (rest.foldl
      (fun d q => d ++ "L" ++ numToString (some q.x) ++ " " ++ numToString (some q.y))
      ("M" ++ numToString (some p0.x) ++ " " ++ numToString (some p0.y))) ++ "Z"

/-- the produced glyph record: `svgPath`, pixel `width`/`height` (the `id` and `name`
fields are derived from the wall clock `Date.now()` and carry no verified content). -/
structure GlyphData where
  svgPath : String
  width : Nat
  height : Nat
deriving DecidableEq

/-- tail of vectoriseSelection, CharacterExtractor.tsx lines 268-313: trace, remove
collinear points, build the path only when more than two points survive, and return
no glyph (the caller then performs no state change and `onGlyphCreated` is not
invoked) when the path is empty. -/
def vectoriseResult (data : List Nat) (w h threshold : Nat) : Option GlyphData :=
  let points := traceBoundary data w h threshold
  let simplified := simplifyCollinear points
  let svgPath := if 2 < simplified.length then svgPathBuild simplified else ""
  if svgPath = "" then none
  else some { svgPath := svgPath, width := w, height := h }

/-! ### Concrete rasters for witnesses and counterexamples -/

/-- a 6×6 RGBA raster (row-major, one line per pixel row) holding a filled black
(0,0,0,255) 4×4 square with corner pixels (1,1) and (4,4) on a white (255,255,255,255)
background. -/
def squareRaster : List Nat :=
  [
    255, 255, 255, 255, 255, 255, 255, 255, 255, 255, 255, 255, 255, 255, 255, 255, 255, 255, 255, 255, 255, 255, 255, 255,
    255, 255, 255, 255, 0, 0, 0, 255, 0, 0, 0, 255, 0, 0, 0, 255, 0, 0, 0, 255, 255, 255, 255, 255,
    255, 255, 255, 255, 0, 0, 0, 255, 0, 0, 0, 255, 0, 0, 0, 255, 0, 0, 0, 255, 255, 255, 255, 255,
    255, 255, 255, 255, 0, 0, 0, 255, 0, 0, 0, 255, 0, 0, 0, 255, 0, 0, 0, 255, 255, 255, 255, 255,
    255, 255, 255, 255, 0, 0, 0, 255, 0, 0, 0, 255, 0, 0, 0, 255, 0, 0, 0, 255, 255, 255, 255, 255,
    255, 255, 255, 255, 255, 255, 255, 255, 255, 255, 255, 255, 255, 255, 255, 255, 255, 255, 255, 255, 255, 255, 255, 255]

/-- a 2×2 all-white RGBA raster: no foreground pixel. -/
def blankRaster : List Nat :=
  [255, 255, 255, 255, 255, 255, 255, 255, 255, 255, 255, 255, 255, 255, 255, 255]

/-! ### Characterisation helpers for the serialized path shape -/

/-- character spine of the serialized segment block starting at its first `L`: one
`L x y` group per point, single spaces between groups, closed by `Z`. -/
def segsTail : List Point → List Char
  | [] => ['Z']
  | [q] => 'L' :: (numRepr q.x ++ ' ' :: numRepr q.y) ++ ['Z']
  | q :: r :: rest => 'L' :: (numRepr q.x ++ ' ' :: numRepr q.y) ++ ' ' :: segsTail (r :: rest)

/-- command chunks the regex scanner produces for `segsTail`: every group but the last
keeps its trailing space, and the final `Z` chunk is appended separately. -/
def segChunks : List Point → List (List Char)
  | [] => []
  | [q] => ['L' :: (numRepr q.x ++ ' ' :: numRepr q.y)]
  | q :: r :: rest => ('L' :: (numRepr q.x ++ ' ' :: numRepr q.y) ++ [' ']) :: segChunks (r :: rest)

/-- corner copy of a point, as the parser reconstructs every parsed point. -/
def toCorner (p : Point) : Point :=
  { x := p.x, y := p.y, type := .corner }

/-- characters contributed to the serialized path by one loop iteration of
`pointsToPath`: a space, `L`, and the two coordinates. -/
def segChars (q : Point) : List Char :=
  ' ' :: 'L' :: (numRepr q.x ++ ' ' :: numRepr q.y)

/-- sample 3-point editor state used in witnesses. -/
def sampleTri : EditorState :=
  ⟨[⟨some 0, some 0, .corner⟩, ⟨some 9, some 0, .corner⟩, ⟨some 0, some 9, .corner⟩], []⟩

/-- sample 4-point editor state used in witnesses. -/
def sampleQuad : EditorState :=
  ⟨[⟨some 0, some 0, .corner⟩, ⟨some 9, some 0, .corner⟩, ⟨some 9, some 9, .corner⟩,
    ⟨some 0, some 9, .corner⟩], []⟩

/-- sample 3-point editor state with one history entry, used in witnesses. -/
def sampleTriH : EditorState :=
  ⟨[⟨some 0, some 0, .corner⟩, ⟨some 9, some 0, .corner⟩, ⟨some 0, some 9, .corner⟩], [[]]⟩

/-- sample 1-point editor state used in witnesses. -/
def sampleOne : EditorState :=
  ⟨[⟨some 1, some 1, .corner⟩], []⟩

/-- sample 3-point closed path used in the serialization claims. -/
def sampleTriangle : List Point :=
  [⟨some 0, some 0, .corner⟩, ⟨some 10, some 0, .corner⟩, ⟨some 0, some 10, .corner⟩]

/-- a path description holding a cubic-curve command `C`, which parsePath does not
recognise. -/
def curvePath : String :=
  "M0 0C1 2 3 4 5 6L10 10Z"

/-! ## Helper lemmas -/

theorem findSome?_const_none {α β : Type} (l : List β) :
    l.findSome? (fun _ => (none : Option α)) = none := by
  induction l with
  | nil => rfl
  | cons a as ih => simp [List.findSome?_cons, ih]

theorem findStart_bounds (data : List Nat) (w h threshold : Nat) (s : Pos)
    (hs : findStart data w h threshold = some s) : 1 ≤ w ∧ 1 ≤ h := by
  constructor
  · by_contra hw
    have hw0 : w = 0 := by omega
    subst hw0
    simp [findStart, findSome?_const_none] at hs
  · by_contra hh
    have hh0 : h = 0 := by omega
    subst hh0
    simp [findStart] at hs

theorem traceGo_length_le (data : List Nat) (w threshold : Nat) (start : Pos)
    (fuel : Nat) : ∀ (p b : Pos) (acc : List Pos),
    (traceGo data w threshold start fuel p b acc).length ≤ acc.length + fuel + 1 := by
  induction fuel with
  | zero =>
    intro p b acc
    rw [traceGo]
    cases findNext data w threshold p b with
    | none => simp
    | some pb =>
      obtain ⟨p1, b1⟩ := pb
      by_cases h : p1 = start
      · simp [h]
      · simp [h]
  | succ n ih =>
    intro p b acc
    rw [traceGo]
    cases findNext data w threshold p b with
    | none =>
      simp only [List.length_append, List.length_cons, List.length_nil]
      omega
    | some pb =>
      obtain ⟨p1, b1⟩ := pb
      by_cases h : p1 = start
      · simp only [h, if_true, List.length_append, List.length_cons, List.length_nil]
        omega
      · simp only [h, if_false]
        calc (traceGo data w threshold start n p1 b1 (acc ++ [p])).length
            ≤ (acc ++ [p]).length + n + 1 := ih p1 b1 (acc ++ [p])
          _ ≤ acc.length + (n + 1) + 1 := by
              simp only [List.length_append, List.length_cons, List.length_nil]
              omega

theorem filterIdxFrom_ne_big {α : Type} (l : List α) (m : Nat) :
    ∀ n, m < n → filterIdxFrom (fun i => i != m) l n = l := by
  induction l with
  | nil => intro n _; rfl
  | cons a as ih =>
    intro n hn
    have : (n != m) = true := by simp; omega
    simp only [filterIdxFrom, this, if_true]
    rw [ih (n + 1) (by omega)]

theorem filterIdxFrom_ne_eraseIdx {α : Type} (l : List α) :
    ∀ (idx n : Nat), filterIdxFrom (fun i => i != idx + n) l n = l.eraseIdx idx := by
  induction l with
  | nil => intro idx n; cases idx <;> rfl
  | cons a as ih =>
    intro idx n
    cases idx with
    | zero =>
      have : (n != 0 + n) = false := by simp
      simp only [filterIdxFrom, this, if_false, List.eraseIdx]
      have := filterIdxFrom_ne_big as n (n + 1) (by omega)
      simpa using this
    | succ j =>
      have : (n != j + 1 + n) = true := by
        simp only [bne_iff_ne, ne_eq]
        omega
      simp only [filterIdxFrom, this, if_true, List.eraseIdx]
      have := ih j (n + 1)
      rw [show j + (n + 1) = j + 1 + n by omega] at this
      rw [this]

theorem digitChar_toNat (d : Nat) (hd : d < 10) : (digitChar d).toNat = 48 + d := by
  interval_cases d <;> decide

theorem isDigitCh_digitChar (d : Nat) (hd : d < 10) : isDigitCh (digitChar d) = true := by
  simp only [isDigitCh, digitChar_toNat d hd, Bool.and_eq_true, decide_eq_true_eq]
  omega

theorem natDigitsAux_digits (fuel : Nat) :
    ∀ n, n < fuel → ∀ c ∈ natDigitsAux fuel n, isDigitCh c = true := by
  induction fuel with
  | zero => intro n hn; omega
  | succ f ih =>
    intro n hn c hc
    rw [natDigitsAux] at hc
    by_cases h10 : n < 10
    · rw [if_pos h10] at hc
      simp only [List.mem_singleton] at hc
      subst hc
      exact isDigitCh_digitChar n h10
    · rw [if_neg h10] at hc
      rcases List.mem_append.mp hc with h | h
      · have hdiv : n / 10 < f := by
          have := Nat.div_lt_self (show 0 < n by omega) (show 1 < 10 by norm_num)
          omega
        exact ih (n / 10) hdiv c h
      · simp only [List.mem_singleton] at h
        subst h
        exact isDigitCh_digitChar (n % 10) (Nat.mod_lt _ (by norm_num))

theorem natDigitsAux_ne_nil (fuel n : Nat) (h : n < fuel) : natDigitsAux fuel n ≠ [] := by
  cases fuel with
  | zero => omega
  | succ f =>
    rw [natDigitsAux]
    by_cases h10 : n < 10
    · simp [h10]
    · simp [h10]

theorem digitsVal_append (l : List Char) (c : Char) :
    digitsVal (l ++ [c]) = 10 * digitsVal l + (c.toNat - 48) := by
  simp [digitsVal, List.foldl_append]

theorem digitsVal_natDigitsAux (fuel : Nat) :
    ∀ n, n < fuel → digitsVal (natDigitsAux fuel n) = n := by
  induction fuel with
  | zero => intro n hn; omega
  | succ f ih =>
    intro n hn
    rw [natDigitsAux]
    by_cases h10 : n < 10
    · rw [if_pos h10]
      simp only [digitsVal, List.foldl_cons, List.foldl_nil, digitChar_toNat n h10]
      omega
    · rw [if_neg h10, digitsVal_append]
      have hdiv : n / 10 < f := by
        have := Nat.div_lt_self (show 0 < n by omega) (show 1 < 10 by norm_num)
        omega
      rw [ih (n / 10) hdiv, digitChar_toNat (n % 10) (Nat.mod_lt _ (by norm_num))]
      omega

theorem natDigits_digits (n : Nat) : ∀ c ∈ natDigits n, isDigitCh c = true :=
  natDigitsAux_digits (n + 1) n (Nat.lt_succ_self n)

theorem natDigits_ne_nil (n : Nat) : natDigits n ≠ [] :=
  natDigitsAux_ne_nil (n + 1) n (Nat.lt_succ_self n)

theorem digitsVal_natDigits (n : Nat) : digitsVal (natDigits n) = n :=
  digitsVal_natDigitsAux (n + 1) n (Nat.lt_succ_self n)

theorem numRepr_some_ne_nil (a : Int) : numRepr (some a) ≠ [] := by
  rw [numRepr]
  by_cases h : a < 0
  · simp [h]
  · simp [h, natDigits_ne_nil]

theorem numRepr_some_mem (a : Int) :
    ∀ c ∈ numRepr (some a), isDigitCh c = true ∨ c = '-' := by
  intro c hc
  rw [numRepr] at hc
  by_cases h : a < 0
  · rw [if_pos h] at hc
    rcases List.mem_cons.mp hc with h1 | h1
    · right; exact h1
    · left; exact natDigits_digits _ c h1
  · rw [if_neg h] at hc
    left; exact natDigits_digits _ c hc

theorem isAlphaCh_eq_true_iff (c : Char) :
    isAlphaCh c = true ↔ (97 ≤ c.toNat ∧ c.toNat ≤ 122) ∨ (65 ≤ c.toNat ∧ c.toNat ≤ 90) := by
  simp [isAlphaCh, Bool.or_eq_true, Bool.and_eq_true, decide_eq_true_eq]

theorem isWsCh_eq_true_iff (c : Char) :
    isWsCh c = true ↔ c.toNat = 32 ∨ c.toNat = 9 ∨ c.toNat = 10 ∨ c.toNat = 13 := by
  simp [isWsCh, Bool.or_eq_true, decide_eq_true_eq, or_assoc]

theorem isSepCh_eq_true_iff (c : Char) :
    isSepCh c = true ↔ isWsCh c = true ∨ c.toNat = 44 := by
  simp [isSepCh, Bool.or_eq_true, decide_eq_true_eq]

theorem digit_or_minus_toNat (c : Char) (h : isDigitCh c = true ∨ c = '-') :
    45 ≤ c.toNat ∧ c.toNat ≤ 57 ∧ c.toNat ≠ 46 ∧ c.toNat ≠ 47 := by
  rcases h with h | h
  · simp only [isDigitCh, Bool.and_eq_true, decide_eq_true_eq] at h
    omega
  · subst h
    decide

theorem digit_or_minus_not_alpha (c : Char) (h : isDigitCh c = true ∨ c = '-') :
    isAlphaCh c = false := by
  rw [Bool.eq_false_iff]
  intro hal
  rw [isAlphaCh_eq_true_iff] at hal
  have := digit_or_minus_toNat c h
  omega

theorem digit_or_minus_not_ws (c : Char) (h : isDigitCh c = true ∨ c = '-') :
    isWsCh c = false := by
  rw [Bool.eq_false_iff]
  intro hws
  rw [isWsCh_eq_true_iff] at hws
  have := digit_or_minus_toNat c h
  omega

theorem digit_or_minus_not_sep (c : Char) (h : isDigitCh c = true ∨ c = '-') :
    isSepCh c = false := by
  rw [Bool.eq_false_iff]
  intro hsep
  rw [isSepCh_eq_true_iff] at hsep
  have := digit_or_minus_toNat c h
  rcases hsep with hws | h44
  · rw [isWsCh_eq_true_iff] at hws
    omega
  · omega

theorem parseNumber_natDigits (m : Nat) : parseNumber (natDigits m) = some (m : Int) := by
  obtain ⟨c, cs, hcs⟩ : ∃ c cs, natDigits m = c :: cs := by
    cases h : natDigits m with
    | nil => exact absurd h (natDigits_ne_nil m)
    | cons c cs => exact ⟨c, cs, rfl⟩
  have hdig := natDigits_digits m
  have hc : isDigitCh c = true := hdig c (by rw [hcs]; exact List.mem_cons_self _ _)
  have hcnum : 48 ≤ c.toNat ∧ c.toNat ≤ 57 := by
    simpa [isDigitCh, Bool.and_eq_true, decide_eq_true_eq] using hc
  rw [hcs, parseNumber]
  rw [if_neg (by simp)]
  have hhd : (c :: cs).headD ' ' = c := rfl
  rw [hhd]
  rw [if_neg (by intro h; subst h; revert hcnum; decide)]
  rw [if_neg (by intro h; subst h; revert hcnum; decide)]
  rw [if_pos (by rw [← hcs]; exact List.all_eq_true.mpr hdig)]
  rw [← hcs, digitsVal_natDigits]

theorem parseNumber_numRepr (a : Int) : parseNumber (numRepr (some a)) = some a := by
  rw [numRepr]
  by_cases h : a < 0
  · rw [if_pos h, parseNumber]
    rw [if_neg (by simp)]
    have hhd : ('-' :: natDigits (-a).toNat).headD ' ' = '-' := rfl
    rw [hhd, if_pos rfl]
    have htl : ('-' :: natDigits (-a).toNat).tail = natDigits (-a).toNat := rfl
    rw [htl]
    rw [if_pos ⟨natDigits_ne_nil _, List.all_eq_true.mpr (natDigits_digits _)⟩]
    rw [digitsVal_natDigits]
    congr 1
    omega
  · rw [if_neg h, parseNumber_natDigits]
    congr 1
    omega

theorem dropWhile_cons_of_neg {p : Char → Bool} {a : Char} {l : List Char}
    (h : p a = false) : (a :: l).dropWhile p = a :: l := by
  simp [List.dropWhile_cons, h]

theorem trimWs_sandwich (x y sp : List Char) (hx : x ≠ []) (hy : y ≠ [])
    (hxc : ∀ c ∈ x, isWsCh c = false) (hyc : ∀ c ∈ y, isWsCh c = false)
    (hsp : sp = [] ∨ sp = [' ']) :
    trimWs ((x ++ ' ' :: y) ++ sp) = x ++ ' ' :: y := by
  obtain ⟨a, x1, rfl⟩ : ∃ a x1, x = a :: x1 := by
    cases x with
    | nil => exact absurd rfl hx
    | cons a x1 => exact ⟨a, x1, rfl⟩
  obtain ⟨ys, b, rfl⟩ : ∃ ys b, y = ys ++ [b] := by
    rcases List.eq_nil_or_concat y with h | ⟨L, c, h⟩
    · exact absurd h hy
    · exact ⟨L, c, by rw [h, List.concat_eq_append]⟩
  have hb : isWsCh b = false := hyc b (by simp)
  have hfront : (((a :: x1) ++ ' ' :: (ys ++ [b])) ++ sp).dropWhile isWsCh
      = ((a :: x1) ++ ' ' :: (ys ++ [b])) ++ sp := by
    rw [List.cons_append, List.cons_append]
    exact dropWhile_cons_of_neg (hxc a (List.mem_cons_self a x1))
  have hshape : (a :: x1) ++ ' ' :: (ys ++ [b]) = ((a :: x1) ++ ' ' :: ys) ++ [b] := by
    simp
  rw [trimWs, hfront]
  rcases hsp with rfl | rfl
  · rw [List.append_nil, hshape, List.reverse_append]
    rw [show ([b] : List Char).reverse = [b] from rfl, List.singleton_append]
    rw [dropWhile_cons_of_neg hb]
    simp
  · rw [List.reverse_append]
    rw [show ([' '] : List Char).reverse = [' '] from rfl, List.singleton_append]
    rw [List.dropWhile_cons]
    rw [show isWsCh ' ' = true from rfl, if_pos rfl]
    rw [hshape, List.reverse_append]
    rw [show ([b] : List Char).reverse = [b] from rfl, List.singleton_append]
    rw [dropWhile_cons_of_neg hb]
    simp

theorem splitSepGo_accum (u : List Char) :
    ∀ (cur rest : List Char), (∀ c ∈ u, isSepCh c = false) →
    splitSepGo (u ++ rest) cur false = splitSepGo rest (u.reverse ++ cur) false := by
  induction u with
  | nil =>
    intro cur rest _
    simp
  | cons c cs ih =>
    intro cur rest h
    have hc : isSepCh c = false := h c (List.mem_cons_self _ _)
    rw [List.cons_append]
    rw [splitSepGo]
    rw [hc]
    rw [if_neg (by simp)]
    rw [ih (c :: cur) rest (fun d hd => h d (List.mem_cons_of_mem c hd))]
    simp

theorem splitSep_pair (x y : List Char) (hx : ∀ c ∈ x, isSepCh c = false)
    (hy : ∀ c ∈ y, isSepCh c = false) (hy0 : y ≠ []) :
    splitSep (x ++ ' ' :: y) = [x, y] := by
  obtain ⟨d, ds, rfl⟩ : ∃ d ds, y = d :: ds := by
    cases y with
    | nil => exact absurd rfl hy0
    | cons d ds => exact ⟨d, ds, rfl⟩
  rw [splitSep, splitSepGo_accum x [] (' ' :: d :: ds) hx, List.append_nil]
  rw [splitSepGo]
  rw [show isSepCh ' ' = true from rfl, if_pos rfl]
  rw [splitSepGo]
  rw [hy d (List.mem_cons_self _ _), if_neg (by simp)]
  have := splitSepGo_accum ds [d] [] (fun c hc => hy c (List.mem_cons_of_mem d hc))
  rw [List.append_nil] at this
  rw [this]
  rw [splitSepGo]
  simp

theorem splitCommandsGo_accum (u : List Char) :
    ∀ (k rest : List Char), (∀ c ∈ u, isAlphaCh c = false) →
    splitCommandsGo (u ++ rest) (some k) = splitCommandsGo rest (some (u.reverse ++ k)) := by
  induction u with
  | nil =>
    intro k rest _
    simp
  | cons c cs ih =>
    intro k rest h
    have hc : isAlphaCh c = false := h c (List.mem_cons_self _ _)
    rw [List.cons_append]
    simp only [splitCommandsGo]
    rw [hc]
    rw [if_neg (by simp)]
    rw [ih (c :: k) rest (fun d hd => h d (List.mem_cons_of_mem c hd))]
    simp

theorem splitCommandsGo_flush (l k : List Char)
    (hl : l = [] ∨ ∃ c cs, l = c :: cs ∧ isAlphaCh c = true) :
    splitCommandsGo l (some k) = k.reverse :: splitCommandsGo l none := by
  rcases hl with rfl | ⟨c, cs, rfl, hc⟩
  · rfl
  · simp only [splitCommandsGo, hc, if_pos]

theorem seg_body_not_alpha (ax ay : Int) :
    ∀ c ∈ numRepr (some ax) ++ ' ' :: numRepr (some ay), isAlphaCh c = false := by
  intro c hc
  rcases List.mem_append.mp hc with h | h
  · exact digit_or_minus_not_alpha c (numRepr_some_mem ax c h)
  · rcases List.mem_cons.mp h with rfl | h
    · rfl
    · exact digit_or_minus_not_alpha c (numRepr_some_mem ay c h)

theorem segsTail_cons_head (q : Point) (rest : List Point) :
    ∃ cs, segsTail (q :: rest) = 'L' :: cs := by
  cases rest with
  | nil => exact ⟨_, rfl⟩
  | cons r rs => exact ⟨_, rfl⟩

theorem numRepr_some_not_ws (a : Int) : ∀ c ∈ numRepr (some a), isWsCh c = false :=
  fun c hc => digit_or_minus_not_ws c (numRepr_some_mem a c hc)

theorem numRepr_some_not_sep (a : Int) : ∀ c ∈ numRepr (some a), isSepCh c = false :=
  fun c hc => digit_or_minus_not_sep c (numRepr_some_mem a c hc)

theorem parseCmdStep_chunk (acc : List Point) (t : Char) (ht : t = 'M' ∨ t = 'L')
    (ax ay : Int) (sp : List Char) (hsp : sp = [] ∨ sp = [' ']) :
    parseCmdStep acc (t :: ((numRepr (some ax) ++ ' ' :: numRepr (some ay)) ++ sp))
      = acc ++ [{ x := some ax, y := some ay, type := .corner }] := by
  simp only [parseCmdStep]
  rw [trimWs_sandwich _ _ _ (numRepr_some_ne_nil ax) (numRepr_some_ne_nil ay)
    (numRepr_some_not_ws ax) (numRepr_some_not_ws ay) hsp]
  rw [splitSep_pair _ _ (numRepr_some_not_sep ax) (numRepr_some_not_sep ay)
    (numRepr_some_ne_nil ay)]
  rw [List.map_cons, List.map_cons, List.map_nil, parseNumber_numRepr, parseNumber_numRepr]
  rw [if_pos ht]
  rfl

theorem parseCmdStep_z (acc : List Point) : parseCmdStep acc ['Z'] = acc := by
  simp [parseCmdStep]

theorem foldl_parse_segChunks : ∀ (qs : List Point) (acc : List Point),
    (∀ p ∈ qs, p.x.isSome ∧ p.y.isSome) →
    (segChunks qs ++ [['Z']]).foldl parseCmdStep acc = acc ++ qs.map toCorner := by
  intro qs
  induction qs with
  | nil =>
    intro acc _
    simp [segChunks, parseCmdStep_z]
  | cons q rest ih =>
    intro acc h
    obtain ⟨ax, hax⟩ := Option.isSome_iff_exists.mp (h q (List.mem_cons_self _ _)).1
    obtain ⟨ay, hay⟩ := Option.isSome_iff_exists.mp (h q (List.mem_cons_self _ _)).2
    cases rest with
    | nil =>
      rw [segChunks, hax, hay]
      rw [List.cons_append, List.nil_append, List.foldl_cons, List.foldl_cons,
        List.foldl_nil]
      rw [show ('L' :: (numRepr (some ax) ++ ' ' :: numRepr (some ay)))
            = 'L' :: ((numRepr (some ax) ++ ' ' :: numRepr (some ay)) ++ []) by simp]
      rw [parseCmdStep_chunk acc 'L' (Or.inr rfl) ax ay [] (Or.inl rfl)]
      rw [parseCmdStep_z]
      simp [toCorner, hax, hay]
    | cons r rs =>
      rw [segChunks, hax, hay]
      rw [List.cons_append, List.foldl_cons]
      rw [show (('L' :: (numRepr (some ax) ++ ' ' :: numRepr (some ay))) ++ [' '])
            = 'L' :: ((numRepr (some ax) ++ ' ' :: numRepr (some ay)) ++ [' ']) by simp]
      rw [parseCmdStep_chunk acc 'L' (Or.inr rfl) ax ay [' '] (Or.inr rfl)]
      rw [ih _ (fun p hp => h p (List.mem_cons_of_mem q hp))]
      simp [toCorner, hax, hay]

theorem data_append (s t : String) : (s ++ t).data = s.data ++ t.data := by
  cases s
  cases t
  rfl

theorem foldl_data_shape (B : String → Nat → String) (gd : Nat → List Char)
    (hB : ∀ d i, (B d i).data = d.data ++ gd i) :
    ∀ (l : List Nat) (d : String), (l.foldl B d).data = d.data ++ (l.map gd).flatten := by
  intro l
  induction l with
  | nil =>
    intro d
    simp
  | cons a as ih =>
    intro d
    rw [List.foldl_cons, ih, hB, List.map_cons, List.flatten_cons, List.append_assoc]

theorem range_map_getD {α β : Type} (f : α → β) (d : α) :
    ∀ (l : List α), (List.range l.length).map (fun i => f (l.getD i d)) = l.map f := by
  intro l
  induction l with
  | nil => simp
  | cons a as ih =>
    rw [List.length_cons, List.range_succ_eq_map, List.map_cons, List.map_map,
      List.map_cons]
    congr 1

theorem range_map_rot {β : Type} (f : Point → β) (p0 : Point) (tl : List Point) :
    (List.range (p0 :: tl).length).map
      (fun i => f ((p0 :: tl).getD ((i + 1) % (p0 :: tl).length) p0))
      = (tl ++ [p0]).map f := by
  rw [List.length_cons, List.range_succ, List.map_append, List.map_append]
  congr 1
  · calc (List.range tl.length).map
          (fun i => f ((p0 :: tl).getD ((i + 1) % (tl.length + 1)) p0))
        = (List.range tl.length).map (fun i => f (tl.getD i p0)) := by
          apply List.map_congr_left
          intro i hi
          rw [List.mem_range] at hi
          rw [Nat.mod_eq_of_lt (by omega)]
          simp
      _ = tl.map f := range_map_getD f p0 tl
  · simp [Nat.mod_self]

theorem flatten_segChars : ∀ (rest : List Point) (q : Point),
    ((q :: rest).map segChars).flatten ++ ['Z'] = ' ' :: segsTail (q :: rest) := by
  intro rest
  induction rest with
  | nil =>
    intro q
    simp [segChars, segsTail]
  | cons r rs ih =>
    intro q
    rw [List.map_cons, List.flatten_cons, List.append_assoc, ih r]
    rw [segsTail, segChars]
    simp

theorem pointsToPath_data (p0 : Point) (tl : List Point) :
    (pointsToPath (p0 :: tl)).data
      = 'M' :: ((numRepr p0.x ++ ' ' :: numRepr p0.y) ++ ' ' :: segsTail (tl ++ [p0])) := by
  obtain ⟨q, rest, hqr⟩ : ∃ q rest, tl ++ [p0] = q :: rest := by
    cases tl with
    | nil => exact ⟨p0, [], rfl⟩
    | cons t ts => exact ⟨t, ts ++ [p0], rfl⟩
  have hunfold : pointsToPath (p0 :: tl)
      = ((List.range (p0 :: tl).length).foldl
          (fun d i =>
            d ++ " L" ++ numToString ((p0 :: tl).getD ((i + 1) % (p0 :: tl).length) p0).x
              ++ " " ++ numToString ((p0 :: tl).getD ((i + 1) % (p0 :: tl).length) p0).y)
          ("M" ++ numToString p0.x ++ " " ++ numToString p0.y)) ++ "Z" := rfl
  have hB : ∀ (d : String) (i : Nat),
      (d ++ " L" ++ numToString ((p0 :: tl).getD ((i + 1) % (p0 :: tl).length) p0).x
        ++ " " ++ numToString ((p0 :: tl).getD ((i + 1) % (p0 :: tl).length) p0).y).data
      = d.data ++ segChars ((p0 :: tl).getD ((i + 1) % (p0 :: tl).length) p0) := by
    intro d i
    rw [data_append, data_append, data_append, data_append]
    simp [numToString, segChars]
  rw [hunfold, data_append, foldl_data_shape _ _ hB]
  rw [range_map_rot segChars p0 tl]
  rw [data_append, data_append, data_append]
  rw [show ("Z" : String).data = ['Z'] from rfl, show ("M" : String).data = ['M'] from rfl,
    show (" " : String).data = [' '] from rfl]
  rw [List.append_assoc, hqr, flatten_segChars rest q, ← hqr]
  simp [numToString]

theorem splitCommandsGo_segsTail : ∀ (qs : List Point),
    (∀ p ∈ qs, p.x.isSome ∧ p.y.isSome) →
    splitCommandsGo (segsTail qs) none = segChunks qs ++ [['Z']] := by
  intro qs
  induction qs with
  | nil =>
    intro _
    rfl
  | cons q rest ih =>
    intro h
    obtain ⟨ax, hax⟩ := Option.isSome_iff_exists.mp (h q (List.mem_cons_self _ _)).1
    obtain ⟨ay, hay⟩ := Option.isSome_iff_exists.mp (h q (List.mem_cons_self _ _)).2
    cases rest with
    | nil =>
      rw [segsTail, segChunks, hax, hay]
      rw [show ('L' :: (numRepr (some ax) ++ ' ' :: numRepr (some ay)) ++ ['Z'])
            = 'L' :: ((numRepr (some ax) ++ ' ' :: numRepr (some ay)) ++ ['Z']) by simp]
      simp only [splitCommandsGo]
      rw [show isAlphaCh 'L' = true from rfl, if_pos rfl]
      rw [splitCommandsGo_accum _ ['L'] ['Z'] (seg_body_not_alpha ax ay)]
      rw [splitCommandsGo_flush ['Z'] _ (Or.inr ⟨'Z', [], rfl, rfl⟩)]
      rw [show splitCommandsGo ['Z'] none = [['Z']] from rfl]
      simp
    | cons r rs =>
      rw [segsTail, segChunks, hax, hay]
      rw [show ('L' :: (numRepr (some ax) ++ ' ' :: numRepr (some ay))
              ++ ' ' :: segsTail (r :: rs))
            = 'L' :: (((numRepr (some ax) ++ ' ' :: numRepr (some ay)) ++ [' '])
              ++ segsTail (r :: rs)) by simp]
      simp only [splitCommandsGo]
      rw [show isAlphaCh 'L' = true from rfl, if_pos rfl]
      rw [splitCommandsGo_accum _ ['L'] (segsTail (r :: rs)) ?hna]
      case hna =>
        intro c hc
        rcases List.mem_append.mp hc with h1 | h1
        · exact seg_body_not_alpha ax ay c h1
        · rcases List.mem_singleton.mp h1 with rfl
          rfl
      obtain ⟨cs, hcs⟩ := segsTail_cons_head r rs
      rw [splitCommandsGo_flush (segsTail (r :: rs)) _ (Or.inr ⟨'L', cs, hcs, rfl⟩)]
      rw [ih (fun p hp => h p (List.mem_cons_of_mem q hp))]
      simp

theorem parsePath_pointsToPath (p0 : Point) (tl : List Point)
    (hall : ∀ p ∈ p0 :: tl, p.x.isSome ∧ p.y.isSome) :
    parsePath (pointsToPath (p0 :: tl)) = ((p0 :: tl) ++ [p0]).map toCorner := by
  obtain ⟨ax, hax⟩ := Option.isSome_iff_exists.mp (hall p0 (List.mem_cons_self _ _)).1
  obtain ⟨ay, hay⟩ := Option.isSome_iff_exists.mp (hall p0 (List.mem_cons_self _ _)).2
  obtain ⟨q, rest, hqr⟩ : ∃ q rest, tl ++ [p0] = q :: rest := by
    cases tl with
    | nil => exact ⟨p0, [], rfl⟩
    | cons t ts => exact ⟨t, ts ++ [p0], rfl⟩
  have hallrot : ∀ p ∈ tl ++ [p0], p.x.isSome ∧ p.y.isSome := by
    intro p hp
    rcases List.mem_append.mp hp with h1 | h1
    · exact hall p (List.mem_cons_of_mem _ h1)
    · rw [List.mem_singleton.mp h1]
      exact hall p0 (List.mem_cons_self _ _)
  rw [parsePath, pointsToPath_data, hax, hay, splitCommands]
  simp only [splitCommandsGo]
  rw [show isAlphaCh 'M' = true from rfl, if_pos rfl]
  rw [show ((numRepr (some ax) ++ ' ' :: numRepr (some ay)) ++ ' ' :: segsTail (tl ++ [p0]))
        = (((numRepr (some ax) ++ ' ' :: numRepr (some ay)) ++ [' '])
          ++ segsTail (tl ++ [p0])) by simp]
  rw [splitCommandsGo_accum _ ['M'] (segsTail (tl ++ [p0])) ?hna]
  case hna =>
    intro c hc
    rcases List.mem_append.mp hc with h1 | h1
    · exact seg_body_not_alpha ax ay c h1
    · rcases List.mem_singleton.mp h1 with rfl
      rfl
  obtain ⟨cs, hcs⟩ : ∃ cs, segsTail (tl ++ [p0]) = 'L' :: cs := by
    rw [hqr]
    exact segsTail_cons_head q rest
  rw [splitCommandsGo_flush (segsTail (tl ++ [p0])) _ (Or.inr ⟨'L', cs, hcs, rfl⟩)]
  rw [splitCommandsGo_segsTail (tl ++ [p0]) hallrot]
  rw [show ((((numRepr (some ax) ++ ' ' :: numRepr (some ay)) ++ [' ']).reverse
        ++ ['M']).reverse)
      = 'M' :: (((numRepr (some ax) ++ ' ' :: numRepr (some ay))) ++ [' ']) by simp]
  rw [List.foldl_cons]
  rw [parseCmdStep_chunk [] 'M' (Or.inl rfl) ax ay [' '] (Or.inr rfl)]
  rw [foldl_parse_segChunks (tl ++ [p0]) _ hallrot]
  simp [toCorner, hax, hay]

/-! ## Claim theorems -/

/-- Claim C3: for every viewport transform with scale in `[0.1, 10]`, every screen
point under the cursor, and every wheel zoom factor in `[0.5, 2]`, the model
coordinate mapped to the cursor point by `toModel` is the same before and after the
zoom-at-cursor operation `handleWheel` (within epsilon `1e-6`; here the difference is
exactly zero over exact rationals), including when the new scale is clamped. -/
theorem zoom_to_cursor_stable (t : Transform) (mouseX mouseY factor : ℚ)
    (hk1 : 1/10 ≤ t.k) (_hk2 : t.k ≤ 10) (_hf1 : 1/2 ≤ factor) (_hf2 : factor ≤ 2) :
    |(toModel (handleWheel mouseX mouseY factor t) mouseX mouseY).1
        - (toModel t mouseX mouseY).1| ≤ 1/1000000 ∧
    |(toModel (handleWheel mouseX mouseY factor t) mouseX mouseY).2
        - (toModel t mouseX mouseY).2| ≤ 1/1000000 := by
  have hk0 : t.k ≠ 0 := by
    intro h
    rw [h] at hk1
    norm_num at hk1
  have hnew : (1 : ℚ)/10 ≤ max (1/10) (min 10 (t.k * factor)) := le_max_left _ _
  have hnew0 : max (1/10) (min 10 (t.k * factor)) ≠ 0 := by
    intro h
    rw [h] at hnew
    norm_num at hnew
  have h1 : (toModel (handleWheel mouseX mouseY factor t) mouseX mouseY).1
      = (toModel t mouseX mouseY).1 := by
    simp only [toModel, handleWheel]
    field_simp
    ring
  have h2 : (toModel (handleWheel mouseX mouseY factor t) mouseX mouseY).2
      = (toModel t mouseX mouseY).2 := by
    simp only [toModel, handleWheel]
    field_simp
    ring
  rw [h1, h2, sub_self, abs_zero]
  norm_num

/-- witness for `zoom_to_cursor_stable` at a concrete transform, cursor and factor. -/
theorem zoom_to_cursor_stable_witness :
    (1 : ℚ)/10 ≤ (1 : ℚ) ∧ (1 : ℚ) ≤ 10 ∧ (1 : ℚ)/2 ≤ (2 : ℚ) ∧ (2 : ℚ) ≤ 2 ∧
    (|(toModel (handleWheel 3 4 2 ⟨0, 0, 1⟩) 3 4).1 - (toModel ⟨0, 0, 1⟩ 3 4).1|
        ≤ 1/1000000 ∧
      |(toModel (handleWheel 3 4 2 ⟨0, 0, 1⟩) 3 4).2 - (toModel ⟨0, 0, 1⟩ 3 4).2|
        ≤ 1/1000000) :=
  ⟨by norm_num, by norm_num, by norm_num, by norm_num,
    zoom_to_cursor_stable ⟨0, 0, 1⟩ 3 4 2 (by norm_num) (by norm_num) (by norm_num)
      (by norm_num)⟩

/-- Claim C4 counterexample: `resetView` (fit-to-view) is not clamped below: with a
10×10 viewport and a 1000×1000 image it sets the scale to `1/100`, outside `[0.1, 10]`. -/
theorem scale_clamp_counterexample : (resetView 10 10 1000 1000).k < 1/10 := by
  norm_num [resetView]

/-- Claim C4 (amended): the scale stays in `[0.1, 10]` after the zoom buttons and the
wheel zoom, and panning never changes it; fit-to-view/reset-view are only capped from
above (2 in the editor, 1 in the extractor) and can set scales below `0.1`, as the
concrete 10×10-viewport/1000×1000-image instance shows. -/
theorem scale_clamp_amended :
    (∀ (t : Transform) (factor : ℚ),
      1/10 ≤ (handleZoom factor t).k ∧ (handleZoom factor t).k ≤ 10) ∧
    (∀ (t : Transform) (mx my factor : ℚ),
      1/10 ≤ (handleWheel mx my factor t).k ∧ (handleWheel mx my factor t).k ≤ 10) ∧
    (∀ (t : Transform) (dx dy : ℚ), (panBy dx dy t).k = t.k) ∧
    (∀ (cw ch gw gh : ℚ), (handleFitScreen cw ch gw gh).k ≤ 2) ∧
    (∀ (cw ch iw ih : ℚ), (resetView cw ch iw ih).k ≤ 1) ∧
    (resetView 10 10 1000 1000).k < 1/10 := by
  refine ⟨?_, ?_, ?_, ?_, ?_, ?_⟩
  · intro t factor
    exact ⟨le_max_left _ _, max_le (by norm_num) (min_le_left _ _)⟩
  · intro t mx my factor
    exact ⟨le_max_left _ _, max_le (by norm_num) (min_le_left _ _)⟩
  · intro t dx dy
    rfl
  · intro cw ch gw gh
    exact le_trans (min_le_right _ _) (min_le_right _ _)
  · intro cw ch iw ih
    exact le_trans (min_le_right _ _) (min_le_right _ _)
  · norm_num [resetView]

theorem traceGo_cont (data : List Nat) (w threshold : Nat) (start : Pos) (fuel : Nat)
    (p b p1 b1 : Pos) (acc : List Pos)
    (hf : findNext data w threshold p b = some (p1, b1)) (hne : p1 ≠ start) :
    traceGo data w threshold start (fuel + 1) p b acc
      = traceGo data w threshold start fuel p1 b1 (acc ++ [p]) := by
  rw [traceGo, hf]
  simp [hne]

theorem traceGo_last (data : List Nat) (w threshold : Nat) (start : Pos) (fuel : Nat)
    (p b p1 b1 : Pos) (acc : List Pos)
    (hf : findNext data w threshold p b = some (p1, b1)) (heq : p1 = start) :
    traceGo data w threshold start fuel p b acc = acc ++ [p] := by
  rw [traceGo, hf]
  simp [heq]

set_option maxRecDepth 40000 in
theorem findStart_square : findStart squareRaster 6 6 128 = some ⟨1, 1⟩ := by
  decide

set_option maxRecDepth 40000 in
theorem findNext_square_1 :
    findNext squareRaster 6 128 ⟨1, 1⟩ ⟨0, 1⟩
      = some (⟨2, 1⟩, ⟨2, 0⟩) := by
  decide

set_option maxRecDepth 40000 in
theorem findNext_square_2 :
    findNext squareRaster 6 128 ⟨2, 1⟩ ⟨2, 0⟩
      = some (⟨3, 1⟩, ⟨3, 0⟩) := by
  decide

set_option maxRecDepth 40000 in
theorem findNext_square_3 :
    findNext squareRaster 6 128 ⟨3, 1⟩ ⟨3, 0⟩
      = some (⟨4, 1⟩, ⟨4, 0⟩) := by
  decide

set_option maxRecDepth 40000 in
theorem findNext_square_4 :
    findNext squareRaster 6 128 ⟨4, 1⟩ ⟨4, 0⟩
      = some (⟨4, 2⟩, ⟨5, 2⟩) := by
  decide

set_option maxRecDepth 40000 in
theorem findNext_square_5 :
    findNext squareRaster 6 128 ⟨4, 2⟩ ⟨5, 2⟩
      = some (⟨4, 3⟩, ⟨5, 3⟩) := by
  decide

set_option maxRecDepth 40000 in
theorem findNext_square_6 :
    findNext squareRaster 6 128 ⟨4, 3⟩ ⟨5, 3⟩
      = some (⟨4, 4⟩, ⟨5, 4⟩) := by
  decide

set_option maxRecDepth 40000 in
theorem findNext_square_7 :
    findNext squareRaster 6 128 ⟨4, 4⟩ ⟨5, 4⟩
      = some (⟨3, 4⟩, ⟨3, 5⟩) := by
  decide

set_option maxRecDepth 40000 in
theorem findNext_square_8 :
    findNext squareRaster 6 128 ⟨3, 4⟩ ⟨3, 5⟩
      = some (⟨2, 4⟩, ⟨2, 5⟩) := by
  decide

set_option maxRecDepth 40000 in
theorem findNext_square_9 :
    findNext squareRaster 6 128 ⟨2, 4⟩ ⟨2, 5⟩
      = some (⟨1, 4⟩, ⟨1, 5⟩) := by
  decide

set_option maxRecDepth 40000 in
theorem findNext_square_10 :
    findNext squareRaster 6 128 ⟨1, 4⟩ ⟨1, 5⟩
      = some (⟨1, 3⟩, ⟨0, 3⟩) := by
  decide

set_option maxRecDepth 40000 in
theorem findNext_square_11 :
    findNext squareRaster 6 128 ⟨1, 3⟩ ⟨0, 3⟩
      = some (⟨1, 2⟩, ⟨0, 2⟩) := by
  decide

set_option maxRecDepth 40000 in
theorem findNext_square_12 :
    findNext squareRaster 6 128 ⟨1, 2⟩ ⟨0, 2⟩
      = some (⟨1, 1⟩, ⟨0, 1⟩) := by
  decide

theorem traceBoundary_square :
    traceBoundary squareRaster 6 6 128
      = [⟨1, 1⟩, ⟨2, 1⟩, ⟨3, 1⟩, ⟨4, 1⟩, ⟨4, 2⟩, ⟨4, 3⟩, ⟨4, 4⟩, ⟨3, 4⟩, ⟨2, 4⟩, ⟨1, 4⟩, ⟨1, 3⟩, ⟨1, 2⟩] := by
  rw [traceBoundary, findStart_square]
  show traceGo squareRaster 6 128 ⟨1, 1⟩ 71 ⟨1, 1⟩ ⟨0, 1⟩ [] = _
  rw [traceGo_cont _ _ _ _ _ _ _ _ _ _ findNext_square_1 (by decide)]
  rw [traceGo_cont _ _ _ _ _ _ _ _ _ _ findNext_square_2 (by decide)]
  rw [traceGo_cont _ _ _ _ _ _ _ _ _ _ findNext_square_3 (by decide)]
  rw [traceGo_cont _ _ _ _ _ _ _ _ _ _ findNext_square_4 (by decide)]
  rw [traceGo_cont _ _ _ _ _ _ _ _ _ _ findNext_square_5 (by decide)]
  rw [traceGo_cont _ _ _ _ _ _ _ _ _ _ findNext_square_6 (by decide)]
  rw [traceGo_cont _ _ _ _ _ _ _ _ _ _ findNext_square_7 (by decide)]
  rw [traceGo_cont _ _ _ _ _ _ _ _ _ _ findNext_square_8 (by decide)]
  rw [traceGo_cont _ _ _ _ _ _ _ _ _ _ findNext_square_9 (by decide)]
  rw [traceGo_cont _ _ _ _ _ _ _ _ _ _ findNext_square_10 (by decide)]
  rw [traceGo_cont _ _ _ _ _ _ _ _ _ _ findNext_square_11 (by decide)]
  rw [traceGo_last _ _ _ _ _ _ _ _ _ _ findNext_square_12 rfl]
  rfl

/-- Claim C2 counterexample: tracing the filled 4×4 black square with corners (1,1)
and (4,4) on a white 6×6 background at threshold 128 does not yield exactly the four
corner pixels after collinearity removal: the simplified sequence has five points, not
four. -/
theorem trace_square_counterexample :
    simplifyCollinear (traceBoundary squareRaster 6 6 128)
        ≠ [⟨1, 1⟩, ⟨4, 1⟩, ⟨4, 4⟩, ⟨1, 4⟩] ∧
    (simplifyCollinear (traceBoundary squareRaster 6 6 128)).length ≠ 4 := by
  rw [traceBoundary_square]
  decide

/-- Claim C2 (amended): tracing the filled 4×4 black square with corners (1,1) and
(4,4) on a white 6×6 background at threshold 128 yields, after collinearity removal,
exactly five points: the four square corners in clockwise order followed by the last
raw-trace pixel (1,2), which is kept as an anchor even though it is collinear with its
neighbours on the left edge. -/
theorem trace_square_amended :
    simplifyCollinear (traceBoundary squareRaster 6 6 128)
      = [⟨1, 1⟩, ⟨4, 1⟩, ⟨4, 4⟩, ⟨1, 4⟩, ⟨1, 2⟩] := by
  rw [traceBoundary_square]
  decide

/-- Claim C8: the contour-tracing loop always terminates (it is a total function of
its fuel) and pushes at most `maxSteps = w * h * 2` boundary points: it stops on
return to the start pixel, on an isolated pixel, or when the step budget runs out. -/
theorem trace_terminates_bound (data : List Nat) (w h threshold : Nat) :
    (traceBoundary data w h threshold).length ≤ w * h * 2 := by
  cases hs : findStart data w h threshold with
  | none => simp [traceBoundary, hs]
  | some s =>
    obtain ⟨hw, hh⟩ := findStart_bounds data w h threshold s hs
    have h1 : traceBoundary data w h threshold
        = traceGo data w threshold s (w * h * 2 - 1) s ⟨s.x - 1, s.y⟩ [] := by
      rw [traceBoundary, hs]
    have hb := traceGo_length_le data w threshold s (w * h * 2 - 1) s ⟨s.x - 1, s.y⟩ []
    have hwh : 0 < w * h := Nat.mul_pos hw hh
    simp only [List.length_nil] at hb
    rw [h1]
    omega

/-- Claim C9: whenever the traced-and-simplified point sequence has two or fewer
points (in particular when the region contains no foreground pixel), extraction
produces no glyph: `vectoriseResult` is `none`, so the glyph-created callback is never
invoked and no state changes. -/
theorem no_glyph_when_degenerate (data : List Nat) (w h threshold : Nat)
    (hlen : (simplifyCollinear (traceBoundary data w h threshold)).length ≤ 2) :
    vectoriseResult data w h threshold = none := by
  unfold vectoriseResult
  have h2 : ¬ 2 < (simplifyCollinear (traceBoundary data w h threshold)).length := by
    omega
  simp [h2]

/-- witness for `no_glyph_when_degenerate` on the all-white 2×2 raster. -/
theorem no_glyph_when_degenerate_witness :
    (simplifyCollinear (traceBoundary blankRaster 2 2 128)).length ≤ 2 ∧
    vectoriseResult blankRaster 2 2 128 = none :=
  ⟨by decide, no_glyph_when_degenerate blankRaster 2 2 128 (by decide)⟩

/-- Claim C7: deleting a node on a 3-point sequence is refused and leaves the sequence
unchanged; on a sequence of four or more points it removes exactly the targeted point,
yielding one fewer (hence at least three) points; and the delete operation preserves
the "0 or at least 3 points" invariant. -/
theorem delete_point_invariant :
    (∀ (s : EditorState) (idx : Nat), s.points.length = 3 →
      (handleDoubleClickNode idx s).points = s.points) ∧
    (∀ (s : EditorState) (idx : Nat), 4 ≤ s.points.length → idx < s.points.length →
      (handleDoubleClickNode idx s).points = s.points.eraseIdx idx ∧
      (handleDoubleClickNode idx s).points.length = s.points.length - 1 ∧
      3 ≤ (handleDoubleClickNode idx s).points.length) ∧
    (∀ (s : EditorState) (idx : Nat), (s.points.length = 0 ∨ 3 ≤ s.points.length) →
      ((handleDoubleClickNode idx s).points.length = 0 ∨
        3 ≤ (handleDoubleClickNode idx s).points.length)) := by
  have herase : ∀ (s : EditorState) (idx : Nat), 3 < s.points.length →
      (handleDoubleClickNode idx s).points = s.points.eraseIdx idx := by
    intro s idx h
    simp only [handleDoubleClickNode, saveHistory, h, if_true]
    simpa using filterIdxFrom_ne_eraseIdx s.points idx 0
  refine ⟨?_, ?_, ?_⟩
  · intro s idx h
    simp [handleDoubleClickNode, saveHistory, h]
  · intro s idx h4 hidx
    have h3 : 3 < s.points.length := by omega
    have he := herase s idx h3
    have hlen : (s.points.eraseIdx idx).length = s.points.length - 1 := by
      rw [List.length_eraseIdx, if_pos hidx]
    exact ⟨he, by rw [he, hlen], by rw [he, hlen]; omega⟩
  · intro s idx h
    rcases h with h0 | h3
    · left
      simp [handleDoubleClickNode, saveHistory, h0]
    · rcases Nat.lt_or_ge 3 s.points.length with hgt | hle
      · right
        rw [herase s idx hgt, List.length_eraseIdx]
        rcases Nat.lt_or_ge idx s.points.length with hi | hi
        · rw [if_pos hi]; omega
        · rw [if_neg (by omega)]; omega
      · right
        have hno : ¬ 3 < s.points.length := by omega
        simp [handleDoubleClickNode, saveHistory, hno]
        omega

/-- witness for `delete_point_invariant` on concrete 3-point and 4-point states. -/
theorem delete_point_invariant_witness :
    (sampleTri.points.length = 3 ∧
      (handleDoubleClickNode 1 sampleTri).points = sampleTri.points) ∧
    (4 ≤ sampleQuad.points.length ∧ 1 < sampleQuad.points.length ∧
      (handleDoubleClickNode 1 sampleQuad).points = sampleQuad.points.eraseIdx 1) :=
  ⟨⟨by decide, delete_point_invariant.1 sampleTri 1 (by decide)⟩,
    ⟨by decide, by decide,
      (delete_point_invariant.2.1 sampleQuad 1 (by decide) (by decide)).1⟩⟩

/-- Claim C10: refused editor actions still consume history — a double-click delete on
a 3-point sequence and a simplify on six or fewer points each leave the point sequence
unchanged but still push a snapshot, and the subsequent undo pops exactly that
snapshot and restores the identical point sequence. -/
theorem refused_ops_push_history :
    (∀ (s : EditorState) (idx : Nat), s.points.length = 3 →
      (handleDoubleClickNode idx s).points = s.points ∧
      (handleDoubleClickNode idx s).history
        = s.history.drop (s.history.length - 10) ++ [s.points] ∧
      handleUndo (handleDoubleClickNode idx s)
        = { points := s.points, history := s.history.drop (s.history.length - 10) }) ∧
    (∀ (s : EditorState), s.points.length ≤ 6 →
      (handleSimplify s).points = s.points ∧
      (handleSimplify s).history
        = s.history.drop (s.history.length - 10) ++ [s.points] ∧
      handleUndo (handleSimplify s)
        = { points := s.points, history := s.history.drop (s.history.length - 10) }) := by
  have hundo : ∀ (pts : List Point) (l : List (List Point)),
      handleUndo { points := pts, history := l ++ [pts] }
        = { points := pts, history := l } := by
    intro pts l
    have hne : (l ++ [pts]).length ≠ 0 := by simp
    simp [handleUndo, hne, List.getLastD_concat, List.dropLast_concat]
  constructor
  · intro s idx h
    have hno : ¬ 3 < s.points.length := by omega
    have hop : handleDoubleClickNode idx s
        = { points := s.points,
            history := s.history.drop (s.history.length - 10) ++ [s.points] } := by
      simp [handleDoubleClickNode, saveHistory, hno]
    rw [hop]
    exact ⟨rfl, rfl, hundo s.points _⟩
  · intro s h
    have hno : ¬ 6 < s.points.length := by omega
    have hop : handleSimplify s
        = { points := s.points,
            history := s.history.drop (s.history.length - 10) ++ [s.points] } := by
      simp [handleSimplify, saveHistory, hno]
    rw [hop]
    exact ⟨rfl, rfl, hundo s.points _⟩

/-- witness for `refused_ops_push_history` on concrete states. -/
theorem refused_ops_push_history_witness :
    (sampleTriH.points.length = 3 ∧
      handleUndo (handleDoubleClickNode 0 sampleTriH)
        = { points := sampleTriH.points,
            history := sampleTriH.history.drop (sampleTriH.history.length - 10) }) ∧
    (sampleOne.points.length ≤ 6 ∧
      handleUndo (handleSimplify sampleOne)
        = { points := sampleOne.points,
            history := sampleOne.history.drop (sampleOne.history.length - 10) }) :=
  ⟨⟨by decide, (refused_ops_push_history.1 sampleTriH 0 (by decide)).2.2⟩,
    ⟨by decide, (refused_ops_push_history.2 sampleOne (by decide)).2.2⟩⟩

set_option maxRecDepth 8000 in
set_option maxHeartbeats 2000000 in
/-- Claim C5: starting from an empty history, after any 15 mutating editor operations
(each preceded by a snapshot push, as every mutating handler does) the history holds
exactly 11 snapshots — the oldest four were dropped on overflow. Undo then restores a
previous point sequence exactly 11 times (after `k` undos the active points are the
`k`-th entry of the last-in-first-out snapshot list), and every further undo is a
no-op on the empty history. -/
theorem history_bound (init : EditorState) (h0 : init.history = [])
    (a0 a1 a2 a3 a4 a5 a6 a7 a8 a9 a10 a11 a12 a13 a14 : List Point) :
    let final := mutatingOp a14 (mutatingOp a13 (mutatingOp a12 (mutatingOp a11
      (mutatingOp a10 (mutatingOp a9 (mutatingOp a8 (mutatingOp a7 (mutatingOp a6
      (mutatingOp a5 (mutatingOp a4 (mutatingOp a3 (mutatingOp a2 (mutatingOp a1
      (mutatingOp a0 init))))))))))))))
    final.history.length = 11 ∧
    (∀ k, k ≤ 11 → (handleUndo^[k] final).history.length = 11 - k) ∧
    (∀ k, k ≤ 11 →
      (handleUndo^[k] final).points
        = [a14, a13, a12, a11, a10, a9, a8, a7, a6, a5, a4, a3].getD k []) ∧
    handleUndo (handleUndo^[11] final) = handleUndo^[11] final := by
  obtain ⟨pInit, hist⟩ := init
  simp only at h0
  subst h0
  intro final
  have e1 : mutatingOp a0 ⟨pInit, []⟩ = ⟨a0, [pInit]⟩ := rfl
  have e2 : mutatingOp a1 ⟨a0, [pInit]⟩ = ⟨a1, [pInit, a0]⟩ := rfl
  have e3 : mutatingOp a2 ⟨a1, [pInit, a0]⟩ = ⟨a2, [pInit, a0, a1]⟩ := rfl
  have e4 : mutatingOp a3 ⟨a2, [pInit, a0, a1]⟩ = ⟨a3, [pInit, a0, a1, a2]⟩ := rfl
  have e5 : mutatingOp a4 ⟨a3, [pInit, a0, a1, a2]⟩ = ⟨a4, [pInit, a0, a1, a2, a3]⟩ := rfl
  have e6 : mutatingOp a5 ⟨a4, [pInit, a0, a1, a2, a3]⟩ = ⟨a5, [pInit, a0, a1, a2, a3, a4]⟩ := rfl
  have e7 : mutatingOp a6 ⟨a5, [pInit, a0, a1, a2, a3, a4]⟩ = ⟨a6, [pInit, a0, a1, a2, a3, a4, a5]⟩ := rfl
  have e8 : mutatingOp a7 ⟨a6, [pInit, a0, a1, a2, a3, a4, a5]⟩ = ⟨a7, [pInit, a0, a1, a2, a3, a4, a5, a6]⟩ := rfl
  have e9 : mutatingOp a8 ⟨a7, [pInit, a0, a1, a2, a3, a4, a5, a6]⟩ = ⟨a8, [pInit, a0, a1, a2, a3, a4, a5, a6, a7]⟩ := rfl
  have e10 : mutatingOp a9 ⟨a8, [pInit, a0, a1, a2, a3, a4, a5, a6, a7]⟩ = ⟨a9, [pInit, a0, a1, a2, a3, a4, a5, a6, a7, a8]⟩ := rfl
  have e11 : mutatingOp a10 ⟨a9, [pInit, a0, a1, a2, a3, a4, a5, a6, a7, a8]⟩ = ⟨a10, [pInit, a0, a1, a2, a3, a4, a5, a6, a7, a8, a9]⟩ := rfl
  have e12 : mutatingOp a11 ⟨a10, [pInit, a0, a1, a2, a3, a4, a5, a6, a7, a8, a9]⟩ = ⟨a11, [a0, a1, a2, a3, a4, a5, a6, a7, a8, a9, a10]⟩ := rfl
  have e13 : mutatingOp a12 ⟨a11, [a0, a1, a2, a3, a4, a5, a6, a7, a8, a9, a10]⟩ = ⟨a12, [a1, a2, a3, a4, a5, a6, a7, a8, a9, a10, a11]⟩ := rfl
  have e14 : mutatingOp a13 ⟨a12, [a1, a2, a3, a4, a5, a6, a7, a8, a9, a10, a11]⟩ = ⟨a13, [a2, a3, a4, a5, a6, a7, a8, a9, a10, a11, a12]⟩ := rfl
  have e15 : mutatingOp a14 ⟨a13, [a2, a3, a4, a5, a6, a7, a8, a9, a10, a11, a12]⟩ = ⟨a14, [a3, a4, a5, a6, a7, a8, a9, a10, a11, a12, a13]⟩ := rfl
  have hfinal : final = ⟨a14, [a3, a4, a5, a6, a7, a8, a9, a10, a11, a12, a13]⟩ := by
    have hv : final = mutatingOp a14 (mutatingOp a13 (mutatingOp a12 (mutatingOp a11
      (mutatingOp a10 (mutatingOp a9 (mutatingOp a8 (mutatingOp a7 (mutatingOp a6
      (mutatingOp a5 (mutatingOp a4 (mutatingOp a3 (mutatingOp a2 (mutatingOp a1
      (mutatingOp a0 ⟨pInit, []⟩)))))))))))))) := rfl
    rw [hv, e1, e2, e3, e4, e5, e6, e7, e8, e9, e10, e11, e12, e13, e14, e15]
  clear_value final
  have u1 : handleUndo ⟨a14, [a3, a4, a5, a6, a7, a8, a9, a10, a11, a12, a13]⟩ = ⟨a13, [a3, a4, a5, a6, a7, a8, a9, a10, a11, a12]⟩ := rfl
  have u2 : handleUndo ⟨a13, [a3, a4, a5, a6, a7, a8, a9, a10, a11, a12]⟩ = ⟨a12, [a3, a4, a5, a6, a7, a8, a9, a10, a11]⟩ := rfl
  have u3 : handleUndo ⟨a12, [a3, a4, a5, a6, a7, a8, a9, a10, a11]⟩ = ⟨a11, [a3, a4, a5, a6, a7, a8, a9, a10]⟩ := rfl
  have u4 : handleUndo ⟨a11, [a3, a4, a5, a6, a7, a8, a9, a10]⟩ = ⟨a10, [a3, a4, a5, a6, a7, a8, a9]⟩ := rfl
  have u5 : handleUndo ⟨a10, [a3, a4, a5, a6, a7, a8, a9]⟩ = ⟨a9, [a3, a4, a5, a6, a7, a8]⟩ := rfl
  have u6 : handleUndo ⟨a9, [a3, a4, a5, a6, a7, a8]⟩ = ⟨a8, [a3, a4, a5, a6, a7]⟩ := rfl
  have u7 : handleUndo ⟨a8, [a3, a4, a5, a6, a7]⟩ = ⟨a7, [a3, a4, a5, a6]⟩ := rfl
  have u8 : handleUndo ⟨a7, [a3, a4, a5, a6]⟩ = ⟨a6, [a3, a4, a5]⟩ := rfl
  have u9 : handleUndo ⟨a6, [a3, a4, a5]⟩ = ⟨a5, [a3, a4]⟩ := rfl
  have u10 : handleUndo ⟨a5, [a3, a4]⟩ = ⟨a4, [a3]⟩ := rfl
  have u11 : handleUndo ⟨a4, [a3]⟩ = ⟨a3, []⟩ := rfl
  have u12 : handleUndo (⟨a3, []⟩ : EditorState) = ⟨a3, []⟩ := rfl
  have it0 : handleUndo^[0] final = ⟨a14, [a3, a4, a5, a6, a7, a8, a9, a10, a11, a12, a13]⟩ := by
    rw [Function.iterate_zero_apply, hfinal]
  have it1 : handleUndo^[1] final = ⟨a13, [a3, a4, a5, a6, a7, a8, a9, a10, a11, a12]⟩ := by
    rw [show (1 : Nat) = 0 + 1 from rfl, Function.iterate_succ_apply', it0, u1]
  have it2 : handleUndo^[2] final = ⟨a12, [a3, a4, a5, a6, a7, a8, a9, a10, a11]⟩ := by
    rw [show (2 : Nat) = 1 + 1 from rfl, Function.iterate_succ_apply', it1, u2]
  have it3 : handleUndo^[3] final = ⟨a11, [a3, a4, a5, a6, a7, a8, a9, a10]⟩ := by
    rw [show (3 : Nat) = 2 + 1 from rfl, Function.iterate_succ_apply', it2, u3]
  have it4 : handleUndo^[4] final = ⟨a10, [a3, a4, a5, a6, a7, a8, a9]⟩ := by
    rw [show (4 : Nat) = 3 + 1 from rfl, Function.iterate_succ_apply', it3, u4]
  have it5 : handleUndo^[5] final = ⟨a9, [a3, a4, a5, a6, a7, a8]⟩ := by
    rw [show (5 : Nat) = 4 + 1 from rfl, Function.iterate_succ_apply', it4, u5]
  have it6 : handleUndo^[6] final = ⟨a8, [a3, a4, a5, a6, a7]⟩ := by
    rw [show (6 : Nat) = 5 + 1 from rfl, Function.iterate_succ_apply', it5, u6]
  have it7 : handleUndo^[7] final = ⟨a7, [a3, a4, a5, a6]⟩ := by
    rw [show (7 : Nat) = 6 + 1 from rfl, Function.iterate_succ_apply', it6, u7]
  have it8 : handleUndo^[8] final = ⟨a6, [a3, a4, a5]⟩ := by
    rw [show (8 : Nat) = 7 + 1 from rfl, Function.iterate_succ_apply', it7, u8]
  have it9 : handleUndo^[9] final = ⟨a5, [a3, a4]⟩ := by
    rw [show (9 : Nat) = 8 + 1 from rfl, Function.iterate_succ_apply', it8, u9]
  have it10 : handleUndo^[10] final = ⟨a4, [a3]⟩ := by
    rw [show (10 : Nat) = 9 + 1 from rfl, Function.iterate_succ_apply', it9, u10]
  have it11 : handleUndo^[11] final = ⟨a3, []⟩ := by
    rw [show (11 : Nat) = 10 + 1 from rfl, Function.iterate_succ_apply', it10, u11]
  refine ⟨?_, ?_, ?_, ?_⟩
  · rw [hfinal]
    rfl
  · intro k hk
    interval_cases k
    · rw [it0]
      rfl
    · rw [it1]
      rfl
    · rw [it2]
      rfl
    · rw [it3]
      rfl
    · rw [it4]
      rfl
    · rw [it5]
      rfl
    · rw [it6]
      rfl
    · rw [it7]
      rfl
    · rw [it8]
      rfl
    · rw [it9]
      rfl
    · rw [it10]
      rfl
    · rw [it11]
      rfl
  · intro k hk
    interval_cases k
    · rw [it0]
      rfl
    · rw [it1]
      rfl
    · rw [it2]
      rfl
    · rw [it3]
      rfl
    · rw [it4]
      rfl
    · rw [it5]
      rfl
    · rw [it6]
      rfl
    · rw [it7]
      rfl
    · rw [it8]
      rfl
    · rw [it9]
      rfl
    · rw [it10]
      rfl
    · rw [it11]
      rfl
  · rw [it11, u12]
/-- witness for `history_bound` on a concrete initial state and operation sequence. -/
theorem history_bound_witness :
    (⟨[], []⟩ : EditorState).history = [] ∧
    (let final := mutatingOp [] (mutatingOp [] (mutatingOp [] (mutatingOp []
      (mutatingOp [] (mutatingOp [] (mutatingOp [] (mutatingOp [] (mutatingOp []
      (mutatingOp [] (mutatingOp [] (mutatingOp [] (mutatingOp [] (mutatingOp []
      (mutatingOp [] (⟨[], []⟩ : EditorState)))))))))))))))
    final.history.length = 11 ∧
    (∀ k, k ≤ 11 → (handleUndo^[k] final).history.length = 11 - k) ∧
    (∀ k, k ≤ 11 →
      (handleUndo^[k] final).points
        = [[], [], [], [], [], [], [], [], [], [], [], []].getD k []) ∧
    handleUndo (handleUndo^[11] final) = handleUndo^[11] final) :=
  ⟨rfl, history_bound ⟨[], []⟩ rfl [] [] [] [] [] [] [] [] [] [] [] [] [] [] []⟩

/-- Claim C1 counterexample: serializing the 3-point triangle (0,0),(10,0),(0,10) and
parsing the result does not return the original sequence: `pointsToPath` emits an
explicit closing line back to the first point, so the parse has four points, the first
point appearing again at the end. -/
theorem roundtrip_counterexample :
    parsePath (pointsToPath sampleTriangle) ≠ sampleTriangle ∧
    (parsePath (pointsToPath sampleTriangle)).length = 4 := by
  decide

/-- Claim C1 (amended): for every point sequence with at least 3 points (with
integer-valued, non-NaN coordinates), parsing the serialized path description returns
the original sequence with its first point appended once more at the end, every point
tagged corner: `parsePath (pointsToPath pts) = (pts ++ [pts.head]).map toCorner`. -/
theorem roundtrip_amended (p0 : Point) (tl : List Point)
    (_hlen : 3 ≤ (p0 :: tl).length)
    (hall : ∀ p ∈ p0 :: tl, p.x.isSome ∧ p.y.isSome) :
    parsePath (pointsToPath (p0 :: tl)) = ((p0 :: tl) ++ [p0]).map toCorner :=
  parsePath_pointsToPath p0 tl hall

/-- witness for `roundtrip_amended` on the concrete triangle. -/
theorem roundtrip_amended_witness :
    3 ≤ (sampleTriangle).length ∧
    (∀ p ∈ sampleTriangle, p.x.isSome ∧ p.y.isSome) ∧
    parsePath (pointsToPath sampleTriangle)
      = (sampleTriangle ++ [(⟨some 0, some 0, .corner⟩ : Point)]).map toCorner :=
  ⟨by decide, by decide,
    roundtrip_amended (⟨some 0, some 0, .corner⟩ : Point)
      ([⟨some 10, some 0, .corner⟩, ⟨some 0, some 10, .corner⟩] : List Point)
      (by decide) (by decide)⟩

/-- Claim C6 counterexample: parsing a path description holding a cubic-curve command
`C` does not produce any reported parse failure: `parsePath` is total and silently
returns the `M`/`L` points only, dropping the whole curve command (its endpoint (5,6)
is absent), i.e. a silently incorrect point sequence rather than a failure. -/
theorem parse_unknown_command_counterexample :
    parsePath curvePath
      = [⟨some 0, some 0, .corner⟩, ⟨some 10, some 10, .corner⟩] := by
  decide

/-- Claim C6 (amended): command characters other than `M` and `L` are silently
ignored: deleting such a command chunk from the command list leaves the parsed point
sequence unchanged, and parsing never fails (the parser has no failure outcome). -/
theorem parse_unknown_command_amended (pre post : List (List Char)) (c : List Char)
    (hc : ∀ t rest, c = t :: rest → ¬(t = 'M' ∨ t = 'L')) (acc : List Point) :
    (pre ++ c :: post).foldl parseCmdStep acc = (pre ++ post).foldl parseCmdStep acc := by
  rw [List.foldl_append, List.foldl_append, List.foldl_cons]
  congr 1
  cases c with
  | nil => rfl
  | cons t rest =>
    simp only [parseCmdStep]
    rw [if_neg (hc t rest rfl)]

/-- witness for `parse_unknown_command_amended`: dropping a concrete `C` chunk between
an `M` chunk and the `Z` chunk leaves the parse unchanged. -/
theorem parse_unknown_command_amended_witness :
    (∀ t rest, (['C', '1', ' ', '2'] : List Char) = t :: rest → ¬(t = 'M' ∨ t = 'L')) ∧
    ([['M', '0', ' ', '0'], ['C', '1', ' ', '2'], ['Z']].foldl parseCmdStep []
      = [['M', '0', ' ', '0'], ['Z']].foldl parseCmdStep []) := by
  refine ⟨?_, parse_unknown_command_amended [['M', '0', ' ', '0']] [['Z']]
    ['C', '1', ' ', '2'] ?_ []⟩
  · intro t rest h
    injection h with h1 _
    subst h1
    decide
  · intro t rest h
    injection h with h1 _
    subst h1
    decide

end Pdf2ttf
